import Mathlib

/-!
# Verification of the `similarity` span-hash estimator

Shallow embedding of `src/diffcore.rs` and `src/main.rs` (vernonrj/similarity).

Modelling conventions:
* Bytes are `Nat` (values < 256 in the source; no claim depends on the bound).
* `usize`/`u64` arithmetic never overflows on the values involved (sizes,
  occurrences and hash values are used only via comparisons, additions of
  byte counts and the final score formula), so they are embedded as `Nat`.
* `f64` scores are embedded as `ℚ`.  Every f64 operation the source performs
  (`usize as f64` conversions, products with 30000.0/60000.0, the final
  division) is exact in f64 for all sizes below 2^53 / 60000, so on that
  range the rational value coincides bit-for-bit with the f64 the program
  computes.
* `HashMap<Vec<u8>, (u64, usize)>` is embedded as an association list in
  insertion order; the list order stands for one possible iteration order of
  the hash map (Rust's `HashMap` does not fix one).
* Rust's `sort_by` is a stable sort; a stable sort's output is uniquely
  determined by the comparator and the input order, and `List.insertionSort`
  is stable for the same "does not compare Greater" ordering, so the
  embedding of `into_iter` uses `List.insertionSort`.
* `DefaultHasher` (SipHash-1-3) is embedded as an abstract parameter
  `hash : List Nat → Nat`; the source computes the hash of the span content
  only, so every property below that holds for all `hash` holds for it.
-/

/-- A span record: `struct Spanhash { data, hashval, occurrences }`
(`src/diffcore.rs` lines 185-190). -/
structure Spanhash where
  data : List Nat
  hashval : Nat
  occurrences : Nat
deriving DecidableEq, Repr

/-- `SpanhashTop(HashMap<Vec<u8>, (u64, usize)>)` (`src/diffcore.rs` line 90):
entries `(data, (hashval, occurrences))` in one iteration order. -/
def Table : Type := List (List Nat × Nat × Nat)

instance : DecidableEq Table := by
  unfold Table
  infer_instance

instance : Membership (List Nat × Nat × Nat) Table := by
  unfold Table
  infer_instance

/-- `SpanhashTop::len` (`src/diffcore.rs` lines 150-152): the fold
`values().fold(0, |a, &(_, occ)| a + occ)`, i.e. the sum of the occurrence
components. -/
def lenT (t : Table) : Nat :=
  (List.map (fun e => e.2.2) t).sum

/-- The `map` step of `into_iter` (`src/diffcore.rs` lines 159-168): each map
entry `(data, (hashed, occ))` becomes a `Spanhash` record. -/
def toSpans (t : Table) : List Spanhash :=
  List.map (fun e => Spanhash.mk e.1 e.2.1 e.2.2) t

/-- The comparator of `into_iter` (`src/diffcore.rs` lines 169-180) turned
into a "less or equal" test: `spanLE a b` is true iff the comparator does not
return `Ordering::Greater` on `(a, b)`.  Occurrence `0` sorts after
everything, two zero-occurrence records compare `Equal`, and two
nonzero-occurrence records compare by hash value only. -/
def spanLE (a b : Spanhash) : Bool :=
  match a.occurrences, b.occurrences with
  | 0, 0 => true
  | 0, _ + 1 => false
  | _ + 1, 0 => true
  | _ + 1, _ + 1 => a.hashval ≤ b.hashval

/-- `spanLE` as a relation, for use with `List.insertionSort`. -/
def spanR (a b : Spanhash) : Prop := spanLE a b = true

instance : DecidableRel spanR := fun a b => by
  unfold spanR
  infer_instance

instance : IsTotal Spanhash spanR := by
  constructor
  intro a b
  unfold spanR spanLE
  rcases ha : a.occurrences with _ | na <;> rcases hb : b.occurrences with _ | nb <;> simp
  exact Nat.le_total a.hashval b.hashval

instance : IsTrans Spanhash spanR := by
  constructor
  intro a b c hab hbc
  unfold spanR spanLE at *
  rcases ha : a.occurrences with _ | na <;> rcases hb : b.occurrences with _ | nb <;>
    rcases hc : c.occurrences with _ | nc <;> simp_all
  exact Nat.le_trans hab hbc

/-- The sort step of `into_iter` (`src/diffcore.rs` lines 169-180).  Rust's
`sort_by` is stable, and a stable sort is the unique function returning the
sorted permutation that keeps the input order of comparator-equal elements;
`List.insertionSort` is that function for `spanR`. -/
def sortSpans (v : List Spanhash) : List Spanhash :=
  List.insertionSort spanR v

/-- `SpanhashTop::into_iter` (`src/diffcore.rs` lines 155-183): map the
entries to records, then sort. -/
def intoIter (t : Table) : List Spanhash :=
  sortSpans (toSpans t)

/-- The inner `while d.occurrences != 0 { if d.hashval >= s.hashval { break; }
literal_added += d.occurrences; d = dest_top.next() }` loop of `count_changes`
(`src/diffcore.rs` lines 60-66).  The current `d` is the head of the list; an
exhausted iterator (`d = default`, occurrence 0) is the empty list. -/
def advance (sh : Nat) : List Spanhash → Nat → List Spanhash × Nat
  | [], a => ([], a)
  | d :: rest, a =>
    if d.occurrences ≠ 0 ∧ d.hashval < sh then advance sh rest (a + d.occurrences)
    else (d :: rest, a)

/-- The final `while d.occurrences > 0 { literal_added += d.occurrences;
d = dest_top.next() }` loop of `count_changes` (`src/diffcore.rs` lines
80-83). -/
def drainAdded : List Spanhash → Nat → Nat
  | [], a => a
  | d :: rest, a =>
    if d.occurrences > 0 then drainAdded rest (a + d.occurrences) else a

/-- The main loop of `count_changes` (`src/diffcore.rs` lines 53-85) over the
two sorted sequences, with the `source_copied`/`literal_added` accumulators
explicit. -/
def ccLoop : List Spanhash → List Spanhash → Nat → Nat → Nat × Nat
  | [], dst, copied, added => (copied, drainAdded dst added)
  | s :: src, dst, copied, added =>
    match advance s.hashval dst added with
    | (d :: rest, a1) =>
      if d.occurrences > 0 ∧ d.hashval = s.hashval then
        if s.occurrences < d.occurrences then
          ccLoop src rest (copied + s.occurrences) (a1 + (d.occurrences - s.occurrences))
        else
          ccLoop src rest (copied + d.occurrences) a1
      else
        ccLoop src (d :: rest) copied a1
    | ([], a1) => ccLoop src [] copied a1

/-- `count_changes(left, right)` (`src/diffcore.rs` lines 53-85): run the
merge over the two `into_iter` sequences. -/
def countChanges (left right : Table) : Nat × Nat :=
  ccLoop (intoIter left) (intoIter right) 0 0

/-- `estimate_similarity(left, right)` of the library
(`src/diffcore.rs` lines 24-50).  `MAX_SCORE = 60000`, `MIN_SCORE = 30000`;
the guard `max_size as f64 * (MAX_SCORE - MIN_SCORE) < delta_size as f64 *
MAX_SCORE` is the exact integer comparison for sizes below 2^53. -/
def estimate_similarity (left right : Table) : ℚ :=
  let left_size := lenT left
  let right_size := lenT right
  let max_size := max left_size right_size
  let base_size := min left_size right_size
  let delta_size := max_size - base_size
  if max_size * 30000 < delta_size * 60000 then 0
  else if left_size = 0 ∧ right_size = 0 then 60000
  else if left_size = 0 ∨ right_size = 0 then 0
  else ((countChanges left right).1 : ℚ) * 60000 / (max_size : ℚ)

/-- `estimate_similarity(left, right, is_binary)` of the binary
(`src/main.rs` lines 28-61): identical to the library version except that the
sizes come from `get_file_size` (filesystem metadata, the byte length of the
file) instead of `SpanhashTop::len`, and that there is no empty-file match -
after the size guard it goes straight to `count_changes`, whose body
(`src/main.rs` lines 64-99) is textually the same merge as
`src/diffcore.rs`.  For `max_size = 0` the source divides 0.0 by 0.0 (NaN);
`ℚ` renders `0 / 0` as `0`, which still differs from `MAX_SCORE`. -/
def mainEstimate (left_size right_size : Nat) (left right : Table) : ℚ :=
  let max_size := max left_size right_size
  let base_size := min left_size right_size
  let delta_size := max_size - base_size
  if max_size * 30000 < delta_size * 60000 then 0
  else ((countChanges left right).1 : ℚ) * 60000 / (max_size : ℚ)

/-- `has_crlf` (`src/diffcore.rs` lines 130-131): the span (of length
`end_idx`) ends in the two bytes CR LF. -/
def hasCRLF (buf : List Nat) : Bool :=
  1 < buf.length ∧ buf.getLast? = some 10 ∧ buf.dropLast.getLast? = some 13

/-- The CRLF normalization step of `from_reader` (`src/diffcore.rs` lines
130-136): in text mode a span ending in CR LF has the CR removed
(`buf[end_idx - 2] = b'\n'; buf.pop()`); otherwise the span is kept
verbatim. -/
def finishSpan (is_binary : Bool) (buf : List Nat) : List Nat :=
  if is_binary = false ∧ hasCRLF buf then buf.dropLast.dropLast ++ [10]
  else buf

/-- `h.entry(buf).or_insert((hashed, 0)); e.1 += cnt`
(`src/diffcore.rs` lines 143-144): bump the occurrence of an existing key
(keeping its stored hash) or append a fresh entry. -/
def tableInsert (t : Table) (key : List Nat) (hv cnt : Nat) : Table :=
  match t with
  | [] => [(key, hv, cnt)]
  | e :: rest =>
    if e.1 = key then (e.1, e.2.1, e.2.2 + cnt) :: rest
    else e :: tableInsert rest key hv cnt

/-- `memchr::memchr(b'\n', &buf[..buf_len])` (`src/diffcore.rs` line 121):
index of the first newline byte. -/
def memchrNL : List Nat → Option Nat
  | [] => none
  | x :: rest => if x = 10 then some 0 else (memchrNL rest).map (fun i => i + 1)

/-- The inner `while buf_len > 0` span-splitting loop of `from_reader`
(`src/diffcore.rs` lines 120-146).  `buf` holds the valid bytes
(`buf[..buf_len]`; the zero padding from `resize` is never part of a span
because `end_idx ≤ buf_len` always).  Returns the unconsumed remainder (the
`break` case: no newline and fewer than 64 bytes) and the updated table.
The fuel argument only bounds the recursion; `buf.length + 1` is always
enough because every extracted span is nonempty. -/
def innerLoop (hash : List Nat → Nat) (is_binary : Bool) :
    Nat → List Nat → Table → List Nat × Table
  | 0, buf, t => (buf, t)
  | fuel + 1, buf, t =>
    if buf.length = 0 then (buf, t)
    else
      let endIdx : Option Nat :=
        match memchrNL buf with
        | some i => some (i + 1)
        | none => if buf.length < 64 then none else some 64
      match endIdx with
      | none => (buf, t)
      | some e =>
        let sp := finishSpan is_binary (buf.take e)
        innerLoop hash is_binary fuel (buf.drop e) (tableInsert t sp (hash sp) sp.length)

/-- One result of `reader.read(&mut buf[buf_len..max_line_length])`: a chunk
of bytes (`Ok(n)` delivering a prefix of it per call; a chunk `[]` is
`Ok(0)`, end of stream) or a read failure (`Err(_)`). -/
inductive ReadEv where
  | chunk (bs : List Nat) : ReadEv
  | fail : ReadEv
deriving DecidableEq, Repr

/-- The outer `while !is_done` loop of `from_reader` (`src/diffcore.rs`
lines 103-147).  One recursive call per `read`: the reader delivers at most
`64 - buf.len()` bytes of its current chunk; `Ok(0)`, an exhausted event
list, or `Err(_)` ends the loop, after which the inner loop runs one last
time and its remainder (a partial span with no newline, shorter than 64
bytes) is dropped.  Note that the `Err(_)` arm of the source
(lines 115-118) only sets `is_done` - the error is not returned - so this
function is total and always produces `Except.ok`. -/
def frGo (hash : List Nat → Nat) (is_binary : Bool) :
    Nat → List Nat → List ReadEv → Table → Except Unit Table
  | 0, _, _, t => Except.ok t
  | fuel + 1, buf, evs, t =>
    match evs with
    | [] => Except.ok (innerLoop hash is_binary (buf.length + 1) buf t).2
    | ReadEv.fail :: _ => Except.ok (innerLoop hash is_binary (buf.length + 1) buf t).2
    | ReadEv.chunk bs :: rest =>
      if bs.length = 0 then Except.ok (innerLoop hash is_binary (buf.length + 1) buf t).2
      else
        let cap := 64 - buf.length
        let buf2 := buf ++ bs.take cap
        let evs2 := if bs.length ≤ cap then rest else ReadEv.chunk (bs.drop cap) :: rest
        if buf2.length < 64 then frGo hash is_binary fuel buf2 evs2 t
        else
          let bt := innerLoop hash is_binary (buf2.length + 1) buf2 t
          frGo hash is_binary fuel bt.1 evs2 bt.2

/-- Total byte count of a reader's pending chunks, used to size the fuel. -/
def evsSize (evs : List ReadEv) : Nat :=
  (evs.map (fun e => match e with | ReadEv.chunk bs => bs.length | ReadEv.fail => 0)).sum

/-- `SpanhashTop::from_reader(reader, is_binary)` (`src/diffcore.rs` lines
97-149).  Every read call either consumes at least one byte or ends the
loop, so `evsSize evs + evs.length + 1` fuel always reaches a terminal
case. -/
def fromReader (hash : List Nat → Nat) (evs : List ReadEv) (is_binary : Bool) :
    Except Unit Table :=
  frGo hash is_binary (evsSize evs + evs.length + 1) [] evs []

namespace TrigramPath

/-- Modelled from the spec: the trigram / line-match / run-builder path
(`trigram_similarity`) is not among the source files; this whole namespace
follows the spec's words (sections 3, 4.3 and 4.4).  A trigram is "a 3-byte
window encoded as a 24-bit integer (bytes packed most-significant
first)". -/
def pack3 (a b c : Nat) : Nat := a * 65536 + b * 256 + c

/-- Modelled from the spec: degenerate 1- or 2-byte trigrams for short
lines, packed most-significant first. -/
def packShort : List Nat → Nat
  | [] => 0
  | [a] => a
  | a :: b :: _ => a * 256 + b

/-- Modelled from the spec: all 3-byte sliding windows of a line. -/
def triWindows : List Nat → List Nat
  | a :: b :: c :: rest => pack3 a b c :: triWindows (b :: c :: rest)
  | _ => []

/-- Modelled from the spec: the LineTrigramSet of one line — the set of its
3-byte windows (duplicates collapsed); "short lines (<3 bytes) additionally
contribute degenerate 1- or 2-byte trigrams so every non-empty line yields
at least one trigram". -/
def lineTrigrams (l : List Nat) : List Nat :=
  if 3 ≤ l.length then (triWindows l).dedup
  else if l.length = 0 then []
  else [packShort l]

/-- Modelled from the spec: the per-trigram weight of a source line,
`1/(number of trigrams in that source line)`. -/
def lineWeight (l : List Nat) : ℚ :=
  1 / ((lineTrigrams l).length : ℚ)

/-- Modelled from the spec: the MatchMap of one destination line — for each
source line, the sum over the destination line's own trigrams of the weights
that source line registered for them (`|shared trigrams| * weight`); only
pairs whose summed weight exceeds 0.40 are retained. -/
def matchesFor (srcLines : List (List Nat)) (d : List Nat) : List (Nat × ℚ) :=
  srcLines.enum.filterMap (fun p =>
    let w := (((lineTrigrams d).filter (fun tg => tg ∈ lineTrigrams p.2)).length : ℚ) *
      lineWeight p.2
    if 2 / 5 < w then some (p.1, w) else none)

/-- Modelled from the spec: an open run — source-line range (tracked by its
current end), destination-line range (tracked by its start) and the ordered
per-destination-line match percentages. -/
structure Run where
  sEnd : Nat
  dStart : Nat
  pcts : List ℚ
deriving DecidableEq, Repr

/-- Modelled from the spec: step 1 of the run builder on destination line
`j` — a match `(s, p)` extends a run open at source line `s - 1` (advancing
both ranges, appending `p`) or opens a new single-line run anchored at
`(s, j)`. -/
def extendOrNew (opened : List Run) (j : Nat) (m : Nat × ℚ) : Run :=
  match opened.find? (fun r2 => r2.sEnd + 1 == m.1) with
  | some r2 => ⟨m.1, r2.dStart, r2.pcts ++ [m.2]⟩
  | none => ⟨m.1, j, [m.2]⟩

/-- Modelled from the spec: runs with destination-line length greater than 3
are kept, shorter ones discarded. -/
def keepLong (rs : List Run) : List Run :=
  rs.filter (fun r2 => decide (3 < r2.pcts.length))

/-- Modelled from the spec: the run-builder state machine over the
destination lines in order.  Each step builds the new open-run set from the
current MatchMap, closes every previously open run that was not extended,
and keeps the closed runs that pass the length rule; at the end the
remaining open runs are closed under the same rule. -/
def buildRuns (srcLines destLines : List (List Nat)) : List Run :=
  let final := destLines.enum.foldl
    (fun (acc : List Run × List Run) jd =>
      let ms := matchesFor srcLines jd.2
      let newOpen := ms.map (extendOrNew acc.1 jd.1)
      let closed := acc.1.filter (fun r2 => ! ms.any (fun m => r2.sEnd + 1 == m.1))
      (newOpen, acc.2 ++ keepLong closed))
    ([], [])
  final.2 ++ keepLong final.1

/-- Modelled from the spec: the best match percentage for destination line
`j` — the maximum, over the finalized runs covering `j`, of that run's
percentage at position `j` (0 if uncovered). -/
def bestAt (runs : List Run) (j : Nat) : ℚ :=
  runs.foldl
    (fun acc r2 =>
      if r2.dStart ≤ j ∧ j < r2.dStart + r2.pcts.length then
        max acc (r2.pcts.getD (j - r2.dStart) 0)
      else acc)
    0

/-- Modelled from the spec: `trigram_similarity` — average of the per-line
best percentages over all destination lines, times 100; with zero
destination lines the reference behavior returns 100. -/
def trigram_similarity (srcLines destLines : List (List Nat)) : ℚ :=
  if destLines.length = 0 then 100
  else
    (((List.range destLines.length).map (bestAt (buildRuns srcLines destLines))).sum /
      (destLines.length : ℚ)) * 100

/-- Modelled from the spec: a file as a line sequence — split the byte
content at newline bytes, the terminator not part of the line, no empty
trailing line after a final newline. -/
def splitLinesGo : List Nat → List Nat → List (List Nat)
  | [], acc => if acc.length = 0 then [] else [acc.reverse]
  | x :: rest, acc =>
    if x = 10 then acc.reverse :: splitLinesGo rest [] else splitLinesGo rest (x :: acc)

/-- Modelled from the spec: see `splitLinesGo`. -/
def splitLines (bs : List Nat) : List (List Nat) := splitLinesGo bs []

end TrigramPath

/-- A concrete stand-in hash used only to instantiate witnesses; any
function `List Nat → Nat` works in their place. -/
def myHash (l : List Nat) : Nat := l.foldl (fun a b => a * 257 + b + 1) 1

/-- In a `spanR`-sorted sequence a zero-occurrence record is never followed
by a nonzero-occurrence one. -/
lemma zerosTrail_of_sorted {L : List Spanhash} (h : List.Sorted spanR L) :
    List.Pairwise (fun a b => a.occurrences = 0 → b.occurrences = 0) L := by
  refine h.imp ?_
  intro a b hab h0
  rcases hb : b.occurrences with _ | nb
  · rfl
  · exfalso
    unfold spanR spanLE at hab
    rw [h0, hb] at hab
    simp at hab

/-- A source sequence of zero-occurrence records contributes nothing to
`source_copied`, whatever the destination sequence. -/
lemma allZero_copied :
    ∀ (S : List Spanhash), (∀ s ∈ S, s.occurrences = 0) →
      ∀ (D : List Spanhash) (c a : Nat), (ccLoop S D c a).1 = c := by
  intro S
  induction S with
  | nil => intro _ D c a; simp [ccLoop]
  | cons s S ih =>
    intro hz D c a
    have hs : s.occurrences = 0 := hz s (by simp)
    have hz' : ∀ x ∈ S, x.occurrences = 0 := fun x hx => hz x (by simp [hx])
    rcases hadv : advance s.hashval D a with ⟨D1, a1⟩
    cases D1 with
    | nil =>
      simp only [ccLoop, hadv]
      exact ih hz' [] c a1
    | cons d rest =>
      by_cases hc : d.occurrences > 0 ∧ d.hashval = s.hashval
      · simp only [ccLoop, hadv, if_pos hc, hs]
        have hlt : 0 < d.occurrences := hc.1
        rw [if_pos hlt]
        simpa using ih hz' rest c (a1 + (d.occurrences - 0))
      · simp only [ccLoop, hadv, if_neg hc]
        exact ih hz' (d :: rest) c a1

/-- Running the merge of a sequence against itself copies every occurrence:
on identical sorted sequences each span matches itself, so `source_copied`
ends at the total occurrence sum. -/
lemma ccLoop_self :
    ∀ (L : List Spanhash),
      List.Pairwise (fun a b => a.occurrences = 0 → b.occurrences = 0) L →
      ∀ (c a : Nat), (ccLoop L L c a).1 = c + (L.map Spanhash.occurrences).sum := by
  intro L
  induction L with
  | nil => intro _ c a; simp [ccLoop]
  | cons s S ih =>
    intro hp c a
    have hadv : advance s.hashval (s :: S) a = (s :: S, a) := by
      simp [advance]
    rcases hs : s.occurrences with _ | n
    · have hall : ∀ x ∈ S, x.occurrences = 0 :=
        fun x hx => (List.pairwise_cons.mp hp).1 x hx hs
      have hc : ¬ (s.occurrences > 0 ∧ True) := by simp [hs]
      have h1 : (ccLoop (s :: S) (s :: S) c a).1 = c := by
        simp only [ccLoop, hadv]
        rw [if_neg hc]
        exact allZero_copied S hall (s :: S) c a
      have h2 : ((s :: S).map Spanhash.occurrences).sum = 0 := by
        simp only [List.map_cons, List.sum_cons, hs]
        have hz : ∀ x ∈ S.map Spanhash.occurrences, x = 0 := by
          intro x hx
          rcases List.mem_map.mp hx with ⟨y, hy, rfl⟩
          exact hall y hy
        simp [List.sum_eq_zero hz]
      rw [h1, h2]
      omega
    · have hc : s.occurrences > 0 ∧ True := by simp [hs]
      have hlt : ¬ (s.occurrences < s.occurrences) := by omega
      have key : ccLoop (s :: S) (s :: S) c a = ccLoop S S (c + s.occurrences) a := by
        simp only [ccLoop, hadv]
        rw [if_pos hc, if_neg hlt]
      rw [key, ih (List.Pairwise.of_cons hp)]
      simp only [List.map_cons, List.sum_cons]
      omega

/-- The occurrence sum of the `into_iter` sequence is `SpanhashTop::len`. -/
lemma sum_occ_intoIter (t : Table) :
    ((intoIter t).map Spanhash.occurrences).sum = lenT t := by
  unfold intoIter sortSpans
  have hp := (List.perm_insertionSort spanR (toSpans t)).map Spanhash.occurrences
  rw [hp.sum_eq]
  unfold toSpans lenT
  rw [List.map_map]
  rfl

/-- Self-similarity at the table level: `estimate_similarity(h, h)` is
`MAX_SCORE` for every table, empty or not. -/
lemma est_self (t : Table) : estimate_similarity t t = 60000 := by
  unfold estimate_similarity
  simp only [max_self, min_self, Nat.sub_self, Nat.zero_mul, Nat.mul_zero]
  rcases h : lenT t with _ | n
  · simp
  · have hcopy : (countChanges t t).1 = lenT t := by
      unfold countChanges
      have hsorted : List.Sorted spanR (intoIter t) :=
        List.sorted_insertionSort spanR (toSpans t)
      rw [ccLoop_self (intoIter t) (zerosTrail_of_sorted hsorted) 0 0, sum_occ_intoIter]
      simp
    have hne : ((lenT t : ℚ)) ≠ 0 := by
      rw [h]
      exact_mod_cast Nat.succ_ne_zero n
    simp only [Nat.not_lt_zero, if_neg, h]
    simp only [Nat.succ_ne_zero, false_and, if_false, false_or]
    rw [← h, hcopy]
    rw [mul_comm, mul_div_assoc, div_self hne, mul_one]

/-- C1: for every file content (any reader outcome `evs`, any hash function,
either mode flag), `estimate_similarity` applied to two `SpanhashTop` values
built from that same content returns exactly `MAX_SCORE = 60000`. -/
theorem C1_identical_content_max (hash : List Nat → Nat) (evs : List ReadEv)
    (is_binary : Bool) (t : Table) (_h : fromReader hash evs is_binary = Except.ok t) :
    estimate_similarity t t = 60000 :=
  est_self t

/-- Witness for C1 at a concrete input: the file `"a\n"` in text mode. -/
theorem C1_identical_content_max_witness :
    fromReader myHash [ReadEv.chunk [97, 10]] false = Except.ok [([97, 10], 91246, 2)] ∧
      estimate_similarity [([97, 10], 91246, 2)] [([97, 10], 91246, 2)] = 60000 :=
  ⟨by rfl,
    C1_identical_content_max myHash [ReadEv.chunk [97, 10]] false
      [([97, 10], 91246, 2)] (by rfl)⟩

/-- C2: both inputs empty (total occurrence size 0 on both sides) gives
`MAX_SCORE`; exactly one empty input gives 0, in both argument orders. -/
theorem C2_empty_cases (left right : Table) :
    (lenT left = 0 ∧ lenT right = 0 → estimate_similarity left right = 60000) ∧
      (lenT left = 0 ∧ lenT right ≠ 0 → estimate_similarity left right = 0) ∧
      (lenT left ≠ 0 ∧ lenT right = 0 → estimate_similarity left right = 0) := by
  refine ⟨?_, ?_, ?_⟩
  · rintro ⟨hl, hr⟩
    unfold estimate_similarity
    simp [hl, hr]
  · rintro ⟨hl, hr⟩
    have hguard : max (lenT left) (lenT right) * 30000 <
        (max (lenT left) (lenT right) - min (lenT left) (lenT right)) * 60000 := by omega
    simp [estimate_similarity, hguard]
  · rintro ⟨hl, hr⟩
    have hguard : max (lenT left) (lenT right) * 30000 <
        (max (lenT left) (lenT right) - min (lenT left) (lenT right)) * 60000 := by omega
    simp [estimate_similarity, hguard]

/-- Witness for C2 at concrete inputs: the empty table and a table with one
one-byte span. -/
theorem C2_empty_cases_witness :
    estimate_similarity [] [] = 60000 ∧
      estimate_similarity [] [([10], 268, 1)] = 0 ∧
      estimate_similarity [([10], 268, 1)] [] = 0 :=
  ⟨(C2_empty_cases [] []).1 (by decide),
    (C2_empty_cases [] [([10], 268, 1)]).2.1 (by decide),
    (C2_empty_cases [([10], 268, 1)] []).2.2 (by decide)⟩

/-- C3, counterexample to the claim as stated: the claim's bound is
`delta ≥ (MAX−MIN)/MAX × max_size`, i.e. `delta * 60000 ≥ max_size * 30000`,
but the source guard (`src/diffcore.rs` line 38) is strict, so at the exact
boundary the merge still runs.  The tables of the files `"\n\n"` and `"\n"`
have sizes 2 and 1 (`delta = 1 = max_size / 2`), satisfy the claimed bound,
and score 30000, not 0. -/
theorem C3_size_guard_counterexample :
    (max (lenT [([10], 268, 2)]) (lenT [([10], 268, 1)]) * 30000 ≤
        (max (lenT [([10], 268, 2)]) (lenT [([10], 268, 1)]) -
          min (lenT [([10], 268, 2)]) (lenT [([10], 268, 1)])) * 60000) ∧
      estimate_similarity [([10], 268, 2)] [([10], 268, 1)] = 30000 := by
  constructor
  · decide
  · have hcc : (countChanges [([10], 268, 2)] [([10], 268, 1)]).1 = 1 := by decide
    simp only [estimate_similarity, hcc]
    norm_num [lenT]

/-- C3 as amended: when the size delta strictly exceeds half the larger
size — exactly the source condition `max_size * (MAX_SCORE - MIN_SCORE) <
delta_size * MAX_SCORE` — `estimate_similarity` returns 0 from the guard,
before the merge-compare; at `delta = max_size / 2` exactly, the guard does
not fire. -/
theorem C3_size_guard_amended (left right : Table)
    (h : max (lenT left) (lenT right) * 30000 <
      (max (lenT left) (lenT right) - min (lenT left) (lenT right)) * 60000) :
    estimate_similarity left right = 0 := by
  simp [estimate_similarity, h]

/-- Witness for C3 at a concrete input: sizes 3 and 1. -/
theorem C3_size_guard_amended_witness :
    (max (lenT [([10], 268, 3)]) (lenT [([97], 355, 1)]) * 30000 <
        (max (lenT [([10], 268, 3)]) (lenT [([97], 355, 1)]) -
          min (lenT [([10], 268, 3)]) (lenT [([97], 355, 1)])) * 60000) ∧
      estimate_similarity [([10], 268, 3)] [([97], 355, 1)] = 0 :=
  ⟨by decide, C3_size_guard_amended [([10], 268, 3)] [([97], 355, 1)] (by decide)⟩

/-- C4, counterexample to the claim as stated: the comparator
(`src/diffcore.rs` lines 169-180) never compares two nonzero occurrence
counts, so the `into_iter` sequence is NOT non-increasing in occurrence
among nonzero records: with hash values 1 and 2 and occurrences 1 and 7 the
sorted sequence is ascending in occurrence. -/
theorem C4_sort_counterexample :
    ¬ List.Pairwise
        (fun a b => a.occurrences ≠ 0 → b.occurrences ≠ 0 →
          b.occurrences ≤ a.occurrences)
        (intoIter [([0], 1, 1), ([1], 2, 7)]) := by
  decide

/-- C4 as amended: the `into_iter` sequence is sorted with zero-occurrence
records trailing at the end and the nonzero-occurrence records in ascending
hash order (in particular, among records of equal occurrence hash values
ascend); descending occurrence plays no part in the order. -/
theorem C4_sort_invariant_amended (t : Table) :
    List.Pairwise
      (fun a b => (a.occurrences = 0 → b.occurrences = 0) ∧
        (a.occurrences ≠ 0 → b.occurrences ≠ 0 → a.hashval ≤ b.hashval))
      (intoIter t) := by
  have hsorted : List.Sorted spanR (intoIter t) :=
    List.sorted_insertionSort spanR (toSpans t)
  refine hsorted.imp ?_
  intro a b hab
  unfold spanR spanLE at hab
  constructor
  · intro h0
    rcases hb : b.occurrences with _ | nb
    · rfl
    · rw [h0, hb] at hab
      simp at hab
  · intro ha hb
    rcases ha2 : a.occurrences with _ | na
    · exact absurd ha2 ha
    · rcases hb2 : b.occurrences with _ | nb
      · exact absurd hb2 hb
      · rw [ha2, hb2] at hab
        exact_mod_cast by simpa using hab

/-- Equality of `from_reader` results is decidable (used to evaluate the
tables of concrete inputs). -/
instance : DecidableEq (Except Unit Table) := fun a b =>
  match a, b with
  | Except.ok x, Except.ok y =>
    if h : x = y then Decidable.isTrue (by rw [h])
    else Decidable.isFalse (by intro hc; exact h (Except.ok.inj hc))
  | Except.error x, Except.error y =>
    if h : x = y then Decidable.isTrue (by rw [h])
    else Decidable.isFalse (by intro hc; exact h (Except.error.inj hc))
  | Except.ok _, Except.error _ => Decidable.isFalse (by intro hc; cases hc)
  | Except.error _, Except.ok _ => Decidable.isFalse (by intro hc; cases hc)

/-- C5: in text mode a span ending in the two bytes CR LF is keyed and
hashed as the same span with the CR removed — `finishSpan` (the
normalization of `src/diffcore.rs` lines 130-136) rewrites `xs ++ [CR, LF]`
to `xs ++ [LF]` and leaves every span untouched in binary mode — so the
inputs `"foo\r\n"` and `"foo\n"` build identical tables in text mode, while
in binary mode the bytes are preserved verbatim and the two inputs build
different tables. -/
theorem C5_crlf_normalization :
    (∀ xs : List Nat, finishSpan false (xs ++ [13, 10]) = xs ++ [10]) ∧
      (∀ s : List Nat, finishSpan true s = s) ∧
      fromReader myHash [ReadEv.chunk [102, 111, 111, 13, 10]] false =
        fromReader myHash [ReadEv.chunk [102, 111, 111, 10]] false ∧
      fromReader myHash [ReadEv.chunk [102, 111, 111, 13, 10]] true ≠
        fromReader myHash [ReadEv.chunk [102, 111, 111, 10]] true := by
  refine ⟨?_, ?_, by rfl, ?_⟩
  · intro xs
    have hcr : hasCRLF (xs ++ [13, 10]) = true := by
      unfold hasCRLF
      have h1 : (xs ++ [13, 10]).getLast? = some 10 := by
        rw [show xs ++ [13, 10] = (xs ++ [13]) ++ [10] by simp]
        simp
      have h2 : (xs ++ [13, 10]).dropLast = xs ++ [13] := by
        rw [show xs ++ [13, 10] = (xs ++ [13]) ++ [10] by simp]
        simp
      simp [h1, h2]
    unfold finishSpan
    rw [if_pos ⟨rfl, hcr⟩]
    have h2 : (xs ++ [13, 10]).dropLast = xs ++ [13] := by
      rw [show xs ++ [13, 10] = (xs ++ [13]) ++ [10] by simp]
      simp
    rw [h2]
    simp
  · intro s
    unfold finishSpan
    simp
  · decide

/-- C6: the claim says a read error makes `from_reader` return an I/O error;
the code (`src/diffcore.rs` lines 115-118) instead swallows the error
(`Err(_) => { is_done = true; () }`) and returns `Ok` with the table built so
far, the partial span at error time dropped unhashed: on a reader that
delivers `"ab"` and then fails, the result is `Ok` of the empty table, for
every hash function and both mode flags. -/
theorem C6_read_error_swallowed (hash : List Nat → Nat) (is_binary : Bool) :
    fromReader hash [ReadEv.chunk [97, 98], ReadEv.fail] is_binary =
      Except.ok [] := by
  rfl

/-- Doubling the occurrence of a span record (C7's transformation on the
right-hand file). -/
def dblS (s : Spanhash) : Spanhash :=
  Spanhash.mk s.data s.hashval (2 * s.occurrences)

/-- Doubling the occurrence of every span of a table. -/
def dblTable (t : Table) : Table :=
  t.map (fun e => (e.1, e.2.1, 2 * e.2.2))

/-- The comparator in if-then-else form. -/
lemma spanLE_eq (a b : Spanhash) :
    spanLE a b =
      (if a.occurrences = 0 then decide (b.occurrences = 0)
       else if b.occurrences = 0 then true else decide (a.hashval ≤ b.hashval)) := by
  unfold spanLE
  rcases ha : a.occurrences with _ | na <;> rcases hb : b.occurrences with _ | nb <;> simp

/-- The comparator only looks at hash values and at zero-ness of
occurrences, both invariant under doubling. -/
lemma spanR_dbl_iff (a b : Spanhash) : spanR a b ↔ spanR (dblS a) (dblS b) := by
  unfold spanR
  rw [spanLE_eq, spanLE_eq]
  simp [dblS]

/-- `into_iter` commutes with doubling every occurrence: the sort keys are
unchanged and the sort is stable. -/
lemma intoIter_dbl (t : Table) : intoIter (dblTable t) = (intoIter t).map dblS := by
  unfold intoIter sortSpans
  have hmap : toSpans (dblTable t) = (toSpans t).map dblS := by
    unfold toSpans dblTable dblS
    rw [List.map_map, List.map_map]
    rfl
  rw [hmap]
  exact (List.map_insertionSort spanR spanR dblS (toSpans t)
    (fun a _ b _ => spanR_dbl_iff a b)).symm

/-- `advance` visits the same records when the destination occurrences are
doubled (only its `added` accumulator changes). -/
lemma advance_dbl (sh : Nat) :
    ∀ (D : List Spanhash) (a a2 : Nat),
      (advance sh (D.map dblS) a2).1 = (advance sh D a).1.map dblS := by
  intro D
  induction D with
  | nil => intro a a2; simp [advance]
  | cons d rest ih =>
    intro a a2
    by_cases hc : d.occurrences ≠ 0 ∧ d.hashval < sh
    · have hc2 : (dblS d).occurrences ≠ 0 ∧ (dblS d).hashval < sh := by
        unfold dblS
        constructor
        · simpa using hc.1
        · exact hc.2
      simp only [List.map_cons, advance, if_pos hc, if_pos hc2]
      exact ih _ _
    · have hc2 : ¬ ((dblS d).occurrences ≠ 0 ∧ (dblS d).hashval < sh) := by
        unfold dblS
        simpa using hc
      simp only [List.map_cons, advance, if_neg hc, if_neg hc2]

/-- Core of C7: with the destination occurrences doubled, every aligned pair
contributes `min(src, 2*dst) ≥ min(src, dst)` to `source_copied`, and the
alignment itself is unchanged. -/
lemma ccLoop_dbl_mono :
    ∀ (S D : List Spanhash) (c c2 a a2 : Nat), c ≤ c2 →
      (ccLoop S D c a).1 ≤ (ccLoop S (D.map dblS) c2 a2).1 := by
  intro S
  induction S with
  | nil => intro D c c2 a a2 hc; simpa [ccLoop] using hc
  | cons s S ih =>
    intro D c c2 a a2 hc
    rcases hadv : advance s.hashval D a with ⟨D1, a1⟩
    have hadv2 : (advance s.hashval (D.map dblS) a2).1 = D1.map dblS := by
      rw [advance_dbl s.hashval D a a2, hadv]
    rcases hadv2' : advance s.hashval (D.map dblS) a2 with ⟨D2, a3⟩
    have hD2 : D2 = D1.map dblS := by
      rw [hadv2'] at hadv2
      exact hadv2
    subst hD2
    cases D1 with
    | nil =>
      simp only [ccLoop, hadv, hadv2', List.map_nil]
      exact ih [] c c2 a1 a3 hc
    | cons d rest =>
      by_cases hm : d.occurrences > 0 ∧ d.hashval = s.hashval
      · have hm2 : (dblS d).occurrences > 0 ∧ (dblS d).hashval = s.hashval := by
          unfold dblS
          exact ⟨by simpa using hm.1, hm.2⟩
        simp only [ccLoop, hadv, hadv2', List.map_cons]
        rw [if_pos hm, if_pos hm2]
        have hocc : (dblS d).occurrences = 2 * d.occurrences := rfl
        by_cases h1 : s.occurrences < d.occurrences
        · rw [if_pos h1]
          have h2 : s.occurrences < (dblS d).occurrences := by
            rw [hocc]; omega
          rw [if_pos h2]
          exact ih rest _ _ _ _ (by omega)
        · rw [if_neg h1]
          by_cases h2 : s.occurrences < (dblS d).occurrences
          · rw [if_pos h2]
            exact ih rest _ _ _ _ (by omega)
          · rw [if_neg h2]
            rw [hocc] at h2
            exact ih rest _ _ _ _ (by omega)
      · have hm2 : ¬ ((dblS d).occurrences > 0 ∧ (dblS d).hashval = s.hashval) := by
          unfold dblS
          simpa using hm
        simp only [ccLoop, hadv, hadv2', List.map_cons]
        rw [if_neg hm, if_neg hm2]
        exact ih (d :: rest) c c2 a1 a3 hc

/-- C7: doubling the occurrence of every span of the right-hand table never
decreases the copied amount computed by `count_changes`. -/
theorem C7_double_right_monotone (left right : Table) :
    (countChanges left right).1 ≤ (countChanges left (dblTable right)).1 := by
  unfold countChanges
  rw [intoIter_dbl]
  exact ccLoop_dbl_mono (intoIter left) (intoIter right) 0 0 0 0 (Nat.le_refl 0)

/-- C8, counterexample to the claim as stated: when two distinct spans share
the same 64-bit hash value the comparator returns `Equal` on them, so the
stable sort keeps the hash map's iteration order — the merge input is NOT
fully determined by the records.  Two iteration orders of the same map
(records `([0], hash 5, occ 1)` and `([1], hash 5, occ 5)`) produce
different `into_iter` sequences, and the score against a fixed left table
changes from `MAX_SCORE` to 20000. -/
theorem C8_order_counterexample :
    List.Perm ([([0], 5, 1), ([1], 5, 5)] : Table) [([1], 5, 5), ([0], 5, 1)] ∧
      intoIter [([0], 5, 1), ([1], 5, 5)] ≠ intoIter [([1], 5, 5), ([0], 5, 1)] ∧
      estimate_similarity [([0], 5, 1), ([1], 5, 5)] [([1], 5, 5), ([0], 5, 1)] = 20000 ∧
      estimate_similarity [([0], 5, 1), ([1], 5, 5)] [([0], 5, 1), ([1], 5, 5)] = 60000 := by
  refine ⟨by decide, by decide, ?_, est_self _⟩
  have hcc : (countChanges [([0], 5, 1), ([1], 5, 5)] [([1], 5, 5), ([0], 5, 1)]).1 = 2 := by
    decide
  simp only [estimate_similarity, hcc]
  norm_num [lenT]

/-- Two nonzero-occurrence records related both ways by the comparator have
equal hash values. -/
lemma spanR_antisymm_hash {a b : Spanhash} (hab : spanR a b) (hba : spanR b a)
    (ha : a.occurrences ≠ 0) (hb : b.occurrences ≠ 0) : a.hashval = b.hashval := by
  unfold spanR at hab hba
  rw [spanLE_eq] at hab hba
  rw [if_neg ha, if_neg hb] at hab hba
  simp at hab hba
  omega

/-- Two sorted permutations of the same records coincide when all
occurrences are nonzero and the hash values are pairwise distinct (the
comparator is then antisymmetric on the records involved). -/
lemma sorted_perm_eq :
    ∀ (v1 v2 : List Spanhash), v1.Perm v2 →
      List.Sorted spanR v1 → List.Sorted spanR v2 →
      (∀ e ∈ v1, e.occurrences ≠ 0) →
      v1.Pairwise (fun a b => a.hashval ≠ b.hashval) → v1 = v2 := by
  intro v1
  induction v1 with
  | nil =>
    intro v2 hp _ _ _ _
    exact (hp.symm.eq_nil).symm
  | cons a t1 ih =>
    intro v2 hp hs1 hs2 hz hd
    cases v2 with
    | nil => exact absurd hp.eq_nil (by simp)
    | cons b t2 =>
      by_cases hab : a = b
      · subst hab
        have hp' := hp.cons_inv
        rw [ih t2 hp' (List.Sorted.of_cons hs1) (List.Sorted.of_cons hs2)
          (fun e he => hz e (List.mem_cons_of_mem a he)) (List.Pairwise.of_cons hd)]
      · exfalso
        have hain : a ∈ b :: t2 := hp.subset (List.mem_cons_self a t1)
        have hat2 : a ∈ t2 := by
          rcases List.mem_cons.mp hain with h | h
          · exact absurd h hab
          · exact h
        have hbin : b ∈ a :: t1 := hp.symm.subset (List.mem_cons_self b t2)
        have hbt1 : b ∈ t1 := by
          rcases List.mem_cons.mp hbin with h | h
          · exact absurd h.symm hab
          · exact h
        have h1 : spanR a b := List.rel_of_sorted_cons hs1 b hbt1
        have h2 : spanR b a := List.rel_of_sorted_cons hs2 a hat2
        have hocca : a.occurrences ≠ 0 := hz a (List.mem_cons_self a t1)
        have hoccb : b.occurrences ≠ 0 := hz b hbin
        have hhash := spanR_antisymm_hash h1 h2 hocca hoccb
        exact (List.pairwise_cons.mp hd).1 b hbt1 hhash

/-- C8 as amended: the claim holds exactly when distinct spans have
distinct hash values.  For tables whose records all have nonzero occurrence
(every table `from_reader` builds is such) and pairwise distinct hash
values, the `into_iter` sequence is invariant under the hash map's
iteration order; the counterexample shows it is not otherwise. -/
theorem C8_order_determinism_amended (t1 t2 : Table) (hp : List.Perm t1 t2)
    (hz : ∀ e ∈ toSpans t1, e.occurrences ≠ 0)
    (hd : (toSpans t1).Pairwise (fun a b => a.hashval ≠ b.hashval)) :
    intoIter t1 = intoIter t2 := by
  unfold intoIter sortSpans
  have hmapperm : (toSpans t1).Perm (toSpans t2) := by
    unfold toSpans
    exact hp.map _
  have hperm : (List.insertionSort spanR (toSpans t1)).Perm
      (List.insertionSort spanR (toSpans t2)) :=
    ((List.perm_insertionSort spanR (toSpans t1)).trans hmapperm).trans
      (List.perm_insertionSort spanR (toSpans t2)).symm
  refine sorted_perm_eq _ _ hperm
    (List.sorted_insertionSort spanR (toSpans t1))
    (List.sorted_insertionSort spanR (toSpans t2)) ?_ ?_
  · intro e he
    exact hz e ((List.perm_insertionSort spanR (toSpans t1)).subset he)
  · exact ((List.perm_insertionSort spanR (toSpans t1)).pairwise_iff
      (fun h he => h he.symm)).mpr hd

/-- Witness for C8's amended theorem: two iteration orders of a two-entry
map with distinct hash values sort identically. -/
theorem C8_order_determinism_amended_witness :
    intoIter [([0], 1, 1), ([1], 2, 2)] = intoIter [([1], 2, 2), ([0], 1, 1)] :=
  C8_order_determinism_amended [([0], 1, 1), ([1], 2, 2)] [([1], 2, 2), ([0], 1, 1)]
    (by decide) (by decide) (by decide)

set_option maxHeartbeats 1000000000 in
/-- C9: the spec's second entry point, the trigram / line-match / run path
(modelled from the spec, see the `TrigramPath` namespace), reports 100.00
for a source file of 10 identical lines `"a\n"` against an identical
destination file. -/
theorem C9_trigram_identical_hundred :
    TrigramPath.trigram_similarity
      (TrigramPath.splitLines ((List.replicate 10 [97, 10]).flatten))
      (TrigramPath.splitLines ((List.replicate 10 [97, 10]).flatten)) = 100 := by
  rw [show TrigramPath.splitLines ((List.replicate 10 [97, 10]).flatten) =
    [[97],[97],[97],[97],[97],[97],[97],[97],[97],[97]] from rfl]
  have hm : TrigramPath.matchesFor [[97],[97],[97],[97],[97],[97],[97],[97],[97],[97]] [97] =
      [(0, 1), (1, 1), (2, 1), (3, 1), (4, 1), (5, 1), (6, 1), (7, 1), (8, 1), (9, 1)] := by
    rw [TrigramPath.matchesFor]
    rw [show ([[97],[97],[97],[97],[97],[97],[97],[97],[97],[97]] : List (List Nat)).enum =
      [(0,[97]),(1,[97]),(2,[97]),(3,[97]),(4,[97]),(5,[97]),(6,[97]),(7,[97]),(8,[97]),
        (9,[97])] from rfl]
    simp only [List.filterMap_cons, List.filterMap_nil]
    norm_num [TrigramPath.lineTrigrams, TrigramPath.lineWeight, TrigramPath.packShort]
  have hb : TrigramPath.buildRuns [[97],[97],[97],[97],[97],[97],[97],[97],[97],[97]]
      [[97],[97],[97],[97],[97],[97],[97],[97],[97],[97]] =
      [⟨9, 0, [1,1,1,1]⟩, ⟨9, 0, [1,1,1,1,1]⟩, ⟨9, 0, [1,1,1,1,1,1]⟩,
       ⟨9, 0, [1,1,1,1,1,1,1]⟩, ⟨9, 0, [1,1,1,1,1,1,1,1]⟩, ⟨9, 0, [1,1,1,1,1,1,1,1,1]⟩,
       ⟨3, 6, [1,1,1,1]⟩, ⟨4, 5, [1,1,1,1,1]⟩, ⟨5, 4, [1,1,1,1,1,1]⟩,
       ⟨6, 3, [1,1,1,1,1,1,1]⟩, ⟨7, 2, [1,1,1,1,1,1,1,1]⟩, ⟨8, 1, [1,1,1,1,1,1,1,1,1]⟩,
       ⟨9, 0, [1,1,1,1,1,1,1,1,1,1]⟩] := by
    simp [TrigramPath.buildRuns, List.enum, List.enumFrom, hm, TrigramPath.extendOrNew,
      TrigramPath.keepLong, List.find?, List.filter]
  rw [TrigramPath.trigram_similarity]
  rw [hb]
  rw [show ([[97],[97],[97],[97],[97],[97],[97],[97],[97],[97]] : List (List Nat)).length = 10
    from rfl]
  rw [show List.range 10 = [0,1,2,3,4,5,6,7,8,9] from rfl]
  have hmax0 : max (0:ℚ) 1 = 1 := by norm_num
  have hmax1 : max (1:ℚ) 1 = 1 := by norm_num
  simp only [List.length_cons, List.length_nil, List.map_cons, List.map_nil,
    TrigramPath.bestAt, List.foldl_cons, List.foldl_nil]
  norm_num [hmax0, hmax1]

/-- C10, counterexample to the claim as stated: the two estimators disagree
because `main.rs` measures a file by its filesystem byte length while
`diffcore.rs` measures it by `SpanhashTop::len`, and a trailing span without
a newline is dropped from the table entirely.  For the 3-byte file `"abc"`
the table is empty: the library scores the pair `(abc, abc)` at `MAX_SCORE`
while the binary's estimator scores it 0. -/
theorem C10_main_lib_counterexample :
    fromReader myHash [ReadEv.chunk [97, 98, 99]] false = Except.ok [] ∧
      estimate_similarity [] [] = 60000 ∧
      mainEstimate 3 3 [] [] = 0 := by
  refine ⟨by rfl, est_self [], ?_⟩
  have hcc : (countChanges [] []).1 = 0 := by decide
  simp [mainEstimate, hcc]

/-- C10 as amended: whenever the filesystem sizes agree with the table
sizes (`get_file_size = SpanhashTop::len` for both files, e.g. text files
ending in a newline with no CR stripping) and the two are not both empty,
the `main.rs` estimator and the `diffcore.rs` estimator return the same
score; without that agreement the scores can differ, as the
counterexample shows. -/
theorem C10_main_lib_agree_amended (szL szR : Nat) (left right : Table)
    (hL : szL = lenT left) (hR : szR = lenT right) (hnz : ¬ (szL = 0 ∧ szR = 0)) :
    mainEstimate szL szR left right = estimate_similarity left right := by
  subst hL
  subst hR
  unfold mainEstimate estimate_similarity
  by_cases hg : max (lenT left) (lenT right) * 30000 <
      (max (lenT left) (lenT right) - min (lenT left) (lenT right)) * 60000
  · simp [hg]
  · have hne : ¬ (lenT left = 0 ∧ lenT right = 0) := hnz
    have h0 : ¬ (lenT left = 0 ∨ lenT right = 0) := by
      rcases Nat.eq_zero_or_pos (lenT left) with h | h
      · intro hor
        rcases hor with h2 | h2
        · omega
        · omega
      · rcases Nat.eq_zero_or_pos (lenT right) with h2 | h2
        · intro hor
          rcases hor with h3 | h3
          · omega
          · omega
        · intro hor
          rcases hor with h3 | h3 <;> omega
    simp [hg, h0, hne]

/-- Witness for C10's amended theorem: a one-entry table whose length 2
matches the file's byte length. -/
theorem C10_main_lib_agree_amended_witness :
    mainEstimate 2 2 [([97, 10], 91246, 2)] [([97, 10], 91246, 2)] =
      estimate_similarity [([97, 10], 91246, 2)] [([97, 10], 91246, 2)] :=
  C10_main_lib_agree_amended 2 2 [([97, 10], 91246, 2)] [([97, 10], 91246, 2)]
    (by decide) (by decide) (by decide)
